import Mathlib

/-!
Verification development for the play-dead-zomboid toolchain, a pair of
Python scripts that parse a brace-delimited game scripting dialect:

  src/dynamic-item-crawl/Item-extractor.py
  src/dynamic-recipe-crawl/recipe-extractor.py

The parsing and normalization core is shallowly embedded below.  Strings
are lists of characters (`Str`), mirroring the Python string methods used
by the source (strip, lower, split, rstrip, count, startswith).  A source
file is its `readlines()` output: a list of lines, each line normally
ending with a newline character.  Python exceptions that escape the
parser (the IndexError raised by the sub-block loops at end of file, and
the ValueError raised by `float` on a malformed count) are modelled by
`Option`/`none` results.  Floating point numbers produced by `float` on
plain decimal strings are modelled as exact rationals; no claim below
depends on binary rounding.  Definitions in the `Spec` namespace are
written from the wording of the specification, for refinement
comparison; everything else is translated from the source.
-/

namespace PlayDead

abbrev Str := List Char

/-- Python whitespace characters recognised by `str.strip`. -/
def isSpaceC (c : Char) : Bool :=
  c == ' ' || c == '\t' || c == '\n' || c == '\r' || c == '\x0b' || c == '\x0c'

def lstrip (s : Str) : Str := s.dropWhile isSpaceC

def rstrip (s : Str) : Str := (s.reverse.dropWhile isSpaceC).reverse

/-- Python `str.strip()`. -/
def strip (s : Str) : Str := lstrip (rstrip s)

/-- Python `str.rstrip(",")`. -/
def rstripCommas (s : Str) : Str := (s.reverse.dropWhile (fun c => c == ',')).reverse

/-- Python `str.lower()` (ASCII range, which covers all inputs used here). -/
def lowerS (s : Str) : Str := s.map Char.toLower

def startsWithC : Str → Str → Bool
  | [], _ => true
  | _ :: _, [] => false
  | p :: ps, c :: cs => p == c && startsWithC ps cs

def containsC (c : Char) : Str → Bool
  | [] => false
  | d :: ds => d == c || containsC c ds

def countC (c : Char) : Str → Nat
  | [] => 0
  | d :: ds => (if d = c then 1 else 0) + countC c ds

/-- Python `str.split()` (split on runs of whitespace, no empty parts). -/
def splitWSAux : Str → Str → List Str
  | [], cur => if cur.isEmpty then [] else [cur.reverse]
  | c :: cs, cur =>
    if isSpaceC c then
      if cur.isEmpty then splitWSAux cs [] else cur.reverse :: splitWSAux cs []
    else splitWSAux cs (c :: cur)

def splitWS (s : Str) : List Str := splitWSAux s []

/-- Python `str.split(sep, 1)`: split at the first occurrence of `sep`. -/
def splitFirst (sep : Char) : Str → Option (Str × Str)
  | [] => none
  | c :: cs =>
    if c = sep then some ([], cs)
    else
      match splitFirst sep cs with
      | some (l, r) => some (c :: l, r)
      | none => none

/-- Python `str.split(sep)` (full split; an empty string gives one empty part). -/
def splitAll (sep : Char) : Str → List Str
  | [] => [[]]
  | c :: cs =>
    if c = sep then [] :: splitAll sep cs
    else
      match splitAll sep cs with
      | h :: t => (c :: h) :: t
      | [] => [[c]]

/-- Python `str.replace(ch, "", 1)`: remove the first occurrence of `ch`. -/
def removeFirst (ch : Char) : Str → Str
  | [] => []
  | c :: cs => if c = ch then cs else c :: removeFirst ch cs

def digitsValNat (s : Str) : Nat :=
  s.foldl (fun acc c => acc * 10 + (c.toNat - 48)) 0

/-- Python `float` on a plain decimal string (digits with at most one dot),
modelled as the exact rational value of the decimal notation. -/
def parseFloat (s : Str) : ℚ :=
  match splitFirst '.' s with
  | none => mkRat (digitsValNat s) 1
  | some (a, b) => mkRat (digitsValNat a * 10 ^ b.length + digitsValNat b) (10 ^ b.length)

/-- Python `str.isdigit()` restricted to ASCII: nonempty and all decimal digits. -/
def pyIsDigit (s : Str) : Bool := !s.isEmpty && s.all Char.isDigit

/-- The numeric test both extractors use: `raw.replace(".", "", 1).isdigit()`. -/
def pyNumericTest (s : Str) : Bool := pyIsDigit (removeFirst '.' s)

/-- Python dict assignment `d[k] = v`: update in place, else append;
insertion order is preserved. -/
def dictSet (d : List (Str × Str)) (k v : Str) : List (Str × Str) :=
  match d with
  | [] => [(k, v)]
  | (k0, v0) :: rest => if k0 = k then (k, v) :: rest else (k0, v0) :: dictSet rest k v

def strOf (s : String) : Str := s.toList

/-- readlines output of a file whose every line ends with a newline. -/
def mkLines (ls : List String) : List Str := ls.map (fun s => s.toList ++ ['\n'])

/-- The normalized value union produced by the item extractor:
number, list of strings, or string. -/
inductive NVal where
  | num (q : ℚ)
  | list (l : List Str)
  | str (s : Str)
deriving DecidableEq, Repr

/-- Python runtime values flowing through the recipe extractor normalizer. -/
inductive PyVal where
  | num (q : ℚ)
  | str (s : Str)
  | list (l : List PyVal)
  | none_

namespace ItemExtractor

/-- The semicolon list comprehension of `normalize_value` in
Item-extractor.py: split on semicolons, keep tokens whose strip is
nonempty, strip and lowercase each. -/
def listTokens (raw : Str) : List Str :=
  ((splitAll ';' raw).filter (fun t => !(strip t).isEmpty)).map (fun t => lowerS (strip t))

/-- `normalize_value` of Item-extractor.py: strip, try numeric coercion,
else semicolon list, else lowercase string. -/
def normalize_value (raw : Str) : NVal :=
  let r := strip raw
  if pyNumericTest r then .num (parseFloat r)
  else if containsC ';' r then .list (listTokens r)
  else .str (lowerS r)

end ItemExtractor

namespace RecipeExtractor

/- `normalize_value` of recipe-extractor.py: numbers returned unchanged,
strings get numeric coercion else lowercasing (note: no semicolon
splitting), lists are normalized elementwise, other values unchanged. -/
mutual

def normalize_value : PyVal → PyVal
  | .num q => .num q
  | .str s => if pyNumericTest s then .num (parseFloat s) else .str (lowerS s)
  | .list l => .list (normalizeList l)
  | .none_ => .none_

def normalizeList : List PyVal → List PyVal
  | [] => []
  | v :: vs => normalize_value v :: normalizeList vs
end

end RecipeExtractor

/-- Character class `[\d.]`. -/
def isDigitDotC (c : Char) : Bool := c.isDigit || c == '.'

/-- Character class `[A-Za-z0-9_]`. -/
def isWordC (c : Char) : Bool := c.isAlphanum || c == '_'

/-- Character class `[A-Za-z0-9_.:]`. -/
def isIdentC (c : Char) : Bool := c.isAlphanum || c == '_' || c == '.' || c == ':'

/-- `re.search` for the patterns below: try the anchored matcher at each
position left to right (all the patterns used start with a literal or a
class, so leftmost match is position-by-position trial). -/
def searchFirst (f : Str → Option Str) : Str → Option Str
  | [] => f []
  | c :: cs =>
    match f (c :: cs) with
    | some r => some r
    | none => searchFirst f cs

/-- Anchored match of `item\s+([\d.]+)` with IGNORECASE, returning the
capture.  The classes at each juncture are disjoint, so the greedy
quantifiers need no backtracking. -/
def matchCountAt (s : Str) : Option Str :=
  if lowerS (s.take 4) = ['i', 't', 'e', 'm'] then
    let rest := s.drop 4
    if (rest.takeWhile isSpaceC).isEmpty then none
    else
      let digs := (rest.dropWhile isSpaceC).takeWhile isDigitDotC
      if digs.isEmpty then none else some digs
  else none

/-- Anchored match of `\[([^\]]+)\]`, returning the capture: a bracket,
then one or more characters up to the next closing bracket. -/
def matchBracketAt (s : Str) : Option Str :=
  match s with
  | '[' :: rest =>
    let content := rest.takeWhile (fun c => c ≠ ']')
    match rest.dropWhile (fun c => c ≠ ']') with
    | ']' :: _ => if content.isEmpty then none else some content
    | _ => none
  | _ => none

/-- Anchored match of `item\s+[\d.]+\s+([A-Za-z0-9_.:]+)` (no IGNORECASE
flag on this one in the source), returning the capture. -/
def matchDirectAt (s : Str) : Option Str :=
  if s.take 4 = ['i', 't', 'e', 'm'] then
    let r1 := s.drop 4
    if (r1.takeWhile isSpaceC).isEmpty then none
    else
      let r2 := r1.dropWhile isSpaceC
      if (r2.takeWhile isDigitDotC).isEmpty then none
      else
        let r3 := r2.dropWhile isDigitDotC
        if (r3.takeWhile isSpaceC).isEmpty then none
        else
          let tok := (r3.dropWhile isSpaceC).takeWhile isIdentC
          if tok.isEmpty then none else some tok
  else none

/-- Anchored match of `tags\[(.*?)\]` with IGNORECASE: the lazy capture is
everything before the first closing bracket (and may be empty).  Lines
never contain an interior newline, so the dot class is unrestricted
here. -/
def matchTagsAt (s : Str) : Option Str :=
  if lowerS (s.take 5) = ['t', 'a', 'g', 's', '['] then
    let rest := s.drop 5
    match rest.dropWhile (fun c => c ≠ ']') with
    | ']' :: _ => some (rest.takeWhile (fun c => c ≠ ']'))
    | _ => none
  else none

/-- Anchored match of `flags\[(.*?)\]` with IGNORECASE. -/
def matchFlagsAt (s : Str) : Option Str :=
  if lowerS (s.take 6) = ['f', 'l', 'a', 'g', 's', '['] then
    let rest := s.drop 6
    match rest.dropWhile (fun c => c ≠ ']') with
    | ']' :: _ => some (rest.takeWhile (fun c => c ≠ ']'))
    | _ => none
  else none

/-- The `\[([^\]]+)\]` part of the mapper alternation, anchored at the
start of `rest`. -/
def bracketBody (rest : Str) : Option Str :=
  match rest with
  | '[' :: r =>
    let content := r.takeWhile (fun c => c ≠ ']')
    match r.dropWhile (fun c => c ≠ ']') with
    | ']' :: _ => if content.isEmpty then none else some content
    | _ => none
  | _ => none

/-- Anchored match of `mappers?\[([^\]]+)\]|mapper:([A-Za-z0-9_]+)` with
IGNORECASE: the first alternative (with the optional s preferred) is
tried before the colon form at the same position. -/
def matchMapperAt (s : Str) : Option Str :=
  if lowerS (s.take 6) = ['m', 'a', 'p', 'p', 'e', 'r'] then
    let rest := s.drop 6
    let alt1 :=
      match rest with
      | c :: r =>
        if c.toLower = 's' then
          match bracketBody r with
          | some x => some x
          | none => bracketBody rest
        else bracketBody rest
      | [] => none
    match alt1 with
    | some x => some x
    | none =>
      match rest with
      | ':' :: r =>
        let w := r.takeWhile isWordC
        if w.isEmpty then none else some w
      | _ => none
  else none

/-- Anchored match of `mode:([A-Za-z]+)` with IGNORECASE. -/
def matchModeAt (s : Str) : Option Str :=
  if lowerS (s.take 5) = ['m', 'o', 'd', 'e', ':'] then
    let w := (s.drop 5).takeWhile Char.isAlpha
    if w.isEmpty then none else some w
  else none

namespace RecipeExtractor

structure RecipeSlot where
  count : ℚ
  items : List Str
  tags : List Str
  flags : List Str
  mapper : Option Str
  mode : Option Str
  raw : Str
deriving DecidableEq, Repr

/-- `_split_list` of recipe-extractor.py. -/
def _split_list (value : Str) : List Str :=
  ((splitAll ';' value).filter (fun t => !(strip t).isEmpty)).map (fun t => lowerS (strip t))

/-- `_parse_slot` of recipe-extractor.py.  `none` models the uncaught
ValueError that `float` raises when the count capture is not a plain
decimal (two dots or no digit). -/
def _parse_slot (line : Str) : Option RecipeSlot :=
  let original := rstripCommas (rstrip line)
  let countQ : Option ℚ :=
    match searchFirst matchCountAt line with
    | none => some 1
    | some digs =>
      if decide (countC '.' digs ≤ 1) && digs.any Char.isDigit then some (parseFloat digs)
      else none
  match countQ with
  | none => none
  | some count =>
    let items :=
      match searchFirst matchBracketAt line with
      | some content => _split_list content
      | none =>
        match searchFirst matchDirectAt line with
        | some tok => [lowerS tok]
        | none => []
    let tags :=
      match searchFirst matchTagsAt line with
      | some c => _split_list c
      | none => []
    let flags :=
      match searchFirst matchFlagsAt line with
      | some c => _split_list c
      | none => []
    let mapper := (searchFirst matchMapperAt line).map lowerS
    let mode := (searchFirst matchModeAt line).map lowerS
    some ⟨count, items, tags, flags, mapper, mode, original⟩

/-- The extracted fields of a slot, with the raw traceability line (which
of course differs between differently written lines) blanked out. -/
def slotFields (s : RecipeSlot) : RecipeSlot :=
  ⟨s.count, s.items, s.tags, s.flags, s.mapper, s.mode, []⟩

end RecipeExtractor

namespace Spec

/-- The plain numeric pattern in the words of the specification: digits
with at most one dot, no sign, no suffix (so at least one digit and
every character a digit or a dot). -/
def plainNumeric (s : Str) : Bool :=
  s.all (fun c => c.isDigit || c == '.') &&
    decide (countC '.' s ≤ 1) && !(s.filter Char.isDigit).isEmpty

/-- The list step in the words of the specification: the ordered list of
non-empty trimmed lowercased semicolon tokens. -/
def tokens (s : Str) : List Str :=
  ((splitAll ';' s).map (fun t => lowerS (strip t))).filter (fun t => !t.isEmpty)

/-- The value normalizer as the specification words it: trimmed numeric
match first, then semicolon list detection, then lowercase fallback. -/
def normalizeVal (raw : Str) : NVal :=
  let r := strip raw
  if plainNumeric r then .num (parseFloat r)
  else if containsC ';' r then .list (tokens r)
  else .str (lowerS r)

end Spec

/-- An input tuple from discovery with the file content inlined:
workshop id, mod id, source root, path, and the readlines output.
Actual file reading is an external collaborator; read failures are out
of scope of this model. -/
abbrev FileT := Str × Str × Str × Str × List Str

namespace ItemExtractor

structure RawProperty where
  key : Option Str
  value : Option Str
  original_line : Str
deriving DecidableEq, Repr

structure ItemDefinition where
  identity : Str
  workshop_id : Str
  mod_id : Str
  module : Str
  item_name : Str
  file_path : Str
  source_root : Str
  raw_properties : List RawProperty
  effective_properties : List (Str × Str)
deriving DecidableEq, Repr

/-- The lookahead of the item parser (lines 169 to 175): skip blank and
comment lines and return the suffix starting at the first other line,
if any. -/
def skipBlankComments : List Str → Option (List Str)
  | [] => none
  | l :: ls =>
    let peek := strip l
    if peek.isEmpty || startsWithC ['/', '/'] peek then skipBlankComments ls
    else some (l :: ls)

/-- The inner block loop of parse_items (lines 196 to 213): consume lines
while the depth stays positive, recording every line containing an
equals sign as a property (at any depth), other nonblank lines as raw
text.  Returns the accumulated raw properties, the effective dictionary
and the remaining lines; at end of file the accumulators are returned
as they stand. -/
def consumeItemBlock : List Str → Int → List RawProperty → List (Str × Str) →
    List RawProperty × List (Str × Str) × List Str
  | [], _, props, eff => (props, eff, [])
  | text :: rest, depth, props, eff =>
    let stripped := strip text
    let depth2 := depth + (countC '{' stripped : Int) - (countC '}' stripped : Int)
    let acc :=
      if containsC '=' stripped then
        match splitFirst '=' stripped with
        | some (k, v) =>
          let key := strip k
          let val := strip (rstripCommas v)
          (props ++ [⟨some key, some val, rstrip text⟩], dictSet eff (lowerS key) val)
        | none => (props, eff)
      else if stripped.isEmpty then (props, eff)
      else (props ++ [⟨none, none, rstrip text⟩], eff)
    if depth2 > 0 then consumeItemBlock rest depth2 acc.1 acc.2
    else (acc.1, acc.2, rest)

/-- The main loop of parse_items over one file (lines 151 to 227).  The
fuel bounds the number of loop iterations; every iteration consumes at
least one line, so length + 1 fuel is never exhausted. -/
def parseItemsGo (wid mid sroot path : Str) :
    Nat → List Str → Option Str → List ItemDefinition
  | 0, _, _ => []
  | _ + 1, [], _ => []
  | n + 1, l :: ls, cm =>
    let line := strip l
    if startsWithC (strOf "module ") (lowerS line) then
      let cm2 :=
        match (splitWS line).get? 1 with
        | some m => some m
        | none => cm
      parseItemsGo wid mid sroot path n ls cm2
    else if startsWithC (strOf "item ") (lowerS line) then
      match skipBlankComments ls with
      | some (j :: js) =>
        if strip j = ['{'] then
          match cm with
          | some m =>
            match (splitWS line).get? 1 with
            | some name =>
              let r := consumeItemBlock js 1 [] []
              ⟨wid ++ '.' :: mid ++ '.' :: m ++ '.' :: name, wid, mid, m, name,
                path, sroot, r.1, r.2.1⟩ ::
                parseItemsGo wid mid sroot path n r.2.2 cm
            | none => parseItemsGo wid mid sroot path n ls cm
          | none => parseItemsGo wid mid sroot path n ls cm
        else parseItemsGo wid mid sroot path n ls cm
      | some [] => parseItemsGo wid mid sroot path n ls cm
      | none => parseItemsGo wid mid sroot path n ls cm
    else parseItemsGo wid mid sroot path n ls cm

/-- parse_items of Item-extractor.py over in-memory files.  File read
errors cannot occur in this model and local_errors is never populated by
the source, so the error list returned by the source is always empty
here; the function returns the emitted item records. -/
def parse_items : List FileT → List ItemDefinition
  | [] => []
  | (wid, mid, sroot, path, lines) :: fs =>
    parseItemsGo wid mid sroot path (lines.length + 1) lines none ++ parse_items fs

end ItemExtractor

namespace RecipeExtractor

structure RawLine where
  text : Str
deriving DecidableEq, Repr

structure ItemMapper where
  name : Str
  mappings : List (Str × Str)
  raw_lines : List Str
deriving DecidableEq, Repr

structure RecipeDefinition where
  identity : Str
  workshop_id : Str
  mod_id : Str
  module : Option Str
  recipe_name : Str
  file_path : Str
  source_root : Str
  raw_lines : List RawLine
  effective_properties : List (Str × Str)
  inputs : List RecipeSlot
  outputs : List RecipeSlot
  item_mappers : List ItemMapper
deriving DecidableEq, Repr

structure RecipeParseError where
  file_path : Str
  module : Option Str
  recipe_name : Option Str
  message : Str
deriving DecidableEq, Repr

/-- Python string rendering of the module context inside the f-string
that builds a recipe identity (None renders as the text None; the
recipe parser never checks that a module is active). -/
def fmtOpt : Option Str → Str
  | some s => s
  | none => strOf "None"

/-- The inputs and outputs sub-block loops (lines 216 to 228): consume
lines until one whose strip is exactly a closing brace, feeding lines
that start with the slot keyword to the slot extractor.  `none` models
the IndexError raised when no closing line remains before end of file,
or a ValueError from a malformed count.  On success the returned suffix
starts after the closing line, which the outer loop steps past. -/
def consumeSlots : List Str → Option (List RecipeSlot × List Str)
  | [] => none
  | l :: ls =>
    if strip l = ['}'] then some ([], ls)
    else if startsWithC (strOf "item") (lowerS (strip l)) then
      match _parse_slot l with
      | none => none
      | some s =>
        match consumeSlots ls with
        | none => none
        | some (ss, rest) => some (s :: ss, rest)
    else consumeSlots ls

/-- The itemmapper sub-block loop (lines 234 to 239), accumulating raw
lines and the mapping dictionary.  The equals split here runs on the
unstripped line, so a trailing newline shields trailing commas from
being stripped; `none` models the IndexError at end of file. -/
def consumeMapper : List Str → List Str → List (Str × Str) →
    Option (List Str × List (Str × Str) × List Str)
  | [], _, _ => none
  | l :: ls, raws, maps =>
    if strip l = ['}'] then some (raws, maps, ls)
    else
      let maps2 :=
        if containsC '=' l then
          match splitFirst '=' l with
          | some (k, v) => dictSet maps (lowerS (strip k)) (lowerS (strip (rstripCommas v)))
          | none => maps
        else maps
      consumeMapper ls (raws ++ [rstrip l]) maps2

/-- The recipe block loop (lines 204 to 242), fuel-bounded (each
iteration consumes at least one line).  Sub-block headers skip the line
assumed to hold the opening brace, hand over to the sub-block loop, and
leave the depth counter untouched.  Returns the accumulated raw lines,
effective properties, input and output slots, item mappers and the
remaining lines; `none` models an exception escaping a sub-block
loop. -/
def consumeRecipeBlock :
    Nat → List Str → Int → List RawLine → List (Str × Str) →
      List RecipeSlot → List RecipeSlot → List ItemMapper →
      Option (List RawLine × List (Str × Str) × List RecipeSlot ×
        List RecipeSlot × List ItemMapper × List Str)
  | 0, _, _, _, _, _, _, _ => none
  | _ + 1, [], _, raws, eff, ins, outs, maps => some (raws, eff, ins, outs, maps, [])
  | n + 1, l :: ls, depth, raws, eff, ins, outs, maps =>
    let raw := rstrip l
    let stripped := strip raw
    let raws2 := raws ++ [⟨raw⟩]
    let depth2 := depth + (countC '{' stripped : Int) - (countC '}' stripped : Int)
    let step :
        Option (List (Str × Str) × List RecipeSlot × List RecipeSlot ×
          List ItemMapper × List Str) :=
      if containsC '=' stripped && depth2 == 1 then
        match splitFirst '=' stripped with
        | some (k, v) =>
          some (dictSet eff (lowerS (strip k)) (lowerS (strip (rstripCommas v))),
            ins, outs, maps, ls)
        | none => some (eff, ins, outs, maps, ls)
      else if lowerS stripped = strOf "inputs" then
        match consumeSlots (ls.drop 1) with
        | none => none
        | some (ns, rest) => some (eff, ins ++ ns, outs, maps, rest)
      else if lowerS stripped = strOf "outputs" then
        match consumeSlots (ls.drop 1) with
        | none => none
        | some (ns, rest) => some (eff, ins, outs ++ ns, maps, rest)
      else if startsWithC (strOf "itemmapper ") (lowerS stripped) then
        match (splitWS stripped).get? 1 with
        | none => none
        | some nm =>
          match consumeMapper (ls.drop 1) [] [] with
          | none => none
          | some (rawMap, mappings, rest) =>
            some (eff, ins, outs, maps ++ [⟨lowerS nm, mappings, rawMap⟩], rest)
      else some (eff, ins, outs, maps, ls)
    match step with
    | none => none
    | some (eff2, ins2, outs2, maps2, rest) =>
      if depth2 > 0 then consumeRecipeBlock n rest depth2 raws2 eff2 ins2 outs2 maps2
      else some (raws2, eff2, ins2, outs2, maps2, rest)

/-- The per-file loop of parse_recipes (lines 184 to 254), fuel-bounded.
A craftrecipe header requires the immediately following line to strip to
an opening brace; otherwise a structural error is recorded and scanning
resumes at the next line. -/
def parseRecipesGo (wid mid sroot path : Str) :
    Nat → List Str → Option Str →
      Option (List RecipeDefinition × List RecipeParseError)
  | 0, _, _ => some ([], [])
  | _ + 1, [], _ => some ([], [])
  | n + 1, l :: ls, cm =>
    let line := strip l
    if startsWithC (strOf "module ") (lowerS line) then
      match (splitWS line).get? 1 with
      | none => none
      | some m => parseRecipesGo wid mid sroot path n ls (some m)
    else if startsWithC (strOf "craftrecipe ") (lowerS line) then
      match (splitWS line).get? 1 with
      | none => none
      | some rname =>
        match ls with
        | j :: js =>
          if strip j = ['{'] then
            match consumeRecipeBlock (js.length + 1) js 1 [] [] [] [] [] with
            | none => none
            | some (raws, eff, ins, outs, maps, rest) =>
              match parseRecipesGo wid mid sroot path n rest cm with
              | none => none
              | some (rs, es) =>
                some (⟨wid ++ '.' :: mid ++ '.' :: fmtOpt cm ++ '.' :: rname,
                  wid, mid, cm, rname, path, sroot, raws, eff, ins, outs, maps⟩ :: rs, es)
          else
            match parseRecipesGo wid mid sroot path n ls cm with
            | none => none
            | some (rs, es) =>
              some (rs, ⟨path, cm, some rname, strOf "Missing opening brace"⟩ :: es)
        | [] =>
          match parseRecipesGo wid mid sroot path n ls cm with
          | none => none
          | some (rs, es) =>
            some (rs, ⟨path, cm, some rname, strOf "Missing opening brace"⟩ :: es)
    else parseRecipesGo wid mid sroot path n ls cm

/-- parse_recipes of recipe-extractor.py (lines 167 to 256): files whose
workshop id is not BASE and whose lowercased source root does not start
with 42 are skipped before being opened; `none` models an exception
escaping the whole batch. -/
def parse_recipes : List FileT → Option (List RecipeDefinition × List RecipeParseError)
  | [] => some ([], [])
  | (wid, mid, sroot, path, lines) :: fs =>
    if wid ≠ strOf "BASE" ∧ startsWithC (strOf "42") (lowerS sroot) = false then
      parse_recipes fs
    else
      match parseRecipesGo wid mid sroot path (lines.length + 1) lines none with
      | none => none
      | some (rs, es) =>
        match parse_recipes fs with
        | none => none
        | some (rs2, es2) => some (rs ++ rs2, es ++ es2)

end RecipeExtractor

/- ------------------------------------------------------------------ -/
/- Lemmas about the numeric pattern test                              -/
/- ------------------------------------------------------------------ -/

lemma filter_eq_self_of_all {p : Char → Bool} :
    ∀ s : Str, s.all p = true → s.filter p = s := by
  intro s h
  induction s with
  | nil => rfl
  | cons c cs ih =>
    simp only [List.all_cons, Bool.and_eq_true] at h
    simp [List.filter_cons, h.1, ih h.2]

lemma all_digit_eq : ∀ s : Str,
    s.all Char.isDigit =
      (s.all (fun c => c.isDigit || c == '.') && (countC '.' s == 0))
  | [] => by simp [countC]
  | c :: cs => by
    by_cases h : c = '.'
    · subst h
      have hd : ('.' : Char).isDigit = false := by decide
      simp [countC, hd, all_digit_eq cs]
    · simp only [List.all_cons, countC, if_neg h, all_digit_eq cs]
      have : (c == '.') = false := by
        simp [h]
      cases hc : c.isDigit <;> simp [this, hc, Bool.and_assoc]

lemma removeFirst_all_digit : ∀ s : Str,
    (removeFirst '.' s).all Char.isDigit =
      (s.all (fun c => c.isDigit || c == '.') && decide (countC '.' s ≤ 1))
  | [] => by simp [removeFirst, countC]
  | c :: cs => by
    by_cases h : c = '.'
    · subst h
      have hd : ('.' : Char).isDigit = false := by decide
      have h1 : countC '.' ('.' :: cs) = 1 + countC '.' cs := by simp [countC]
      have hcount : (decide (countC '.' ('.' :: cs) ≤ 1)) = (countC '.' cs == 0) := by
        rw [h1]
        cases hn : countC '.' cs with
        | zero => decide
        | succ n =>
          rw [decide_eq_false (by omega : ¬ (1 + (n + 1) ≤ 1))]
          simp
      simp only [removeFirst, if_pos rfl, hcount, List.all_cons, hd]
      simp [all_digit_eq cs, Bool.and_assoc]
    · have : (c == '.') = false := by simp [h]
      simp only [removeFirst, if_neg h, List.all_cons, countC, if_neg h,
        removeFirst_all_digit cs, this]
      cases hc : c.isDigit <;> simp [hc, Bool.and_assoc]

lemma pyNumericTest_eq_spec : ∀ s : Str, pyNumericTest s = Spec.plainNumeric s := by
  intro s
  unfold pyNumericTest pyIsDigit Spec.plainNumeric
  rw [removeFirst_all_digit]
  cases hall : s.all (fun c => c.isDigit || c == '.') with
  | false => simp [hall]
  | true =>
    cases hcnt : decide (countC '.' s ≤ 1) with
    | false => simp [hall, hcnt]
    | true =>
      -- under the pattern conditions, nonemptiness of the dot-removed
      -- string coincides with existence of a digit
      simp only [hall, hcnt, Bool.and_true, Bool.true_and]
      induction s with
      | nil => rfl
      | cons c cs ih =>
        by_cases h : c = '.'
        · subst h
          have hcs : countC '.' cs = 0 := by
            have h1 : countC '.' ('.' :: cs) = 1 + countC '.' cs := by simp [countC]
            have h2 := of_decide_eq_true hcnt
            rw [h1] at h2
            omega
          have hallcs : cs.all (fun c => c.isDigit || c == '.') = true := by
            simp only [List.all_cons] at hall
            exact (Bool.and_eq_true _ _ |>.mp hall).2
          have hdig : cs.all Char.isDigit = true := by
            rw [all_digit_eq, hallcs]
            simp [hcs]
          have hfilter : cs.filter Char.isDigit = cs := filter_eq_self_of_all cs hdig
          have hd : ('.' : Char).isDigit = false := by decide
          simp [removeFirst, List.filter_cons, hd, hfilter]
        · have hc : c.isDigit = true := by
            simp only [List.all_cons, Bool.and_eq_true] at hall
            rcases Bool.or_eq_true _ _ |>.mp hall.1 with h1 | h1
            · exact h1
            · exact absurd (by simpa using h1) h
          simp [removeFirst, if_neg h, List.filter_cons, hc]

lemma lowerS_isEmpty (s : Str) : (lowerS s).isEmpty = s.isEmpty := by
  cases s <;> rfl

lemma listTokens_eq_spec : ∀ s : Str, ItemExtractor.listTokens s = Spec.tokens s := by
  intro s
  unfold ItemExtractor.listTokens Spec.tokens
  rw [List.filter_map]
  congr 1
  apply List.filter_congr
  intro t _
  simp [Function.comp, lowerS_isEmpty]

/- ------------------------------------------------------------------ -/
/- Claim C2                                                           -/
/- ------------------------------------------------------------------ -/

/-- Claim C2 (amended): the exact decision order claimed — plain numeric
pattern first (with "1.0f" and "10kg" falling through), then semicolon
list splitting, then the lowercase fallback — holds for the item
extractor normalizer, which agrees everywhere with the normalizer
written from the words of the specification.  (The recipe extractor
normalizer omits the list step; see the counterexample.) -/
theorem c2_item_normalizer_follows_spec_order :
    (∀ raw : Str, ItemExtractor.normalize_value raw = Spec.normalizeVal raw) ∧
    ItemExtractor.normalize_value (strOf "1.0f") = NVal.str (strOf "1.0f") ∧
    ItemExtractor.normalize_value (strOf "10kg") = NVal.str (strOf "10kg") ∧
    ItemExtractor.normalize_value (strOf "12.5") = NVal.num (mkRat 25 2) ∧
    ItemExtractor.normalize_value (strOf "a;b;c") =
      NVal.list [strOf "a", strOf "b", strOf "c"] := by
  refine ⟨?_, by decide, by decide, by decide, by decide⟩
  intro raw
  simp only [ItemExtractor.normalize_value, Spec.normalizeVal,
    pyNumericTest_eq_spec, listTokens_eq_spec]

/-- Claim C2, counterexample: the recipe extractor normalizer (also cited
by the claim) returns a semicolon-bearing string unchanged instead of
splitting it into a list, so list-detection does not run there at all. -/
theorem c2_recipe_normalizer_never_splits :
    RecipeExtractor.normalize_value (PyVal.str (strOf "a;b")) = PyVal.str (strOf "a;b") ∧
    PyVal.str (strOf "a;b") ≠ PyVal.list [PyVal.str (strOf "a"), PyVal.str (strOf "b")] := by
  constructor
  · have h1 : pyNumericTest (strOf "a;b") = false := by decide
    have h2 : lowerS (strOf "a;b") = strOf "a;b" := by decide
    simp [RecipeExtractor.normalize_value, h1, h2]
  · intro h
    exact PyVal.noConfusion h

/- ------------------------------------------------------------------ -/
/- Claim C9                                                           -/
/- ------------------------------------------------------------------ -/

/-- Claim C9 (amended): re-normalization in the recipe extractor fixes
every Number, and fixes a StringList (list of lowercase string tokens)
whenever no token matches the numeric pattern; list elements are
re-normalized elementwise, so a numeric-looking token is not preserved
(see the counterexample). -/
theorem c9_normalizer_fixed_points :
    (∀ q : ℚ, RecipeExtractor.normalize_value (PyVal.num q) = PyVal.num q) ∧
    (∀ l : List Str,
      (∀ s ∈ l, pyNumericTest s = false ∧ lowerS s = s) →
      RecipeExtractor.normalize_value (PyVal.list (l.map PyVal.str)) =
        PyVal.list (l.map PyVal.str)) := by
  constructor
  · intro q
    simp [RecipeExtractor.normalize_value]
  · intro l h
    simp only [RecipeExtractor.normalize_value, PyVal.list.injEq]
    induction l with
    | nil => rfl
    | cons s rest ih =>
      have hs := h s (by simp)
      simp only [List.map_cons, RecipeExtractor.normalizeList,
        RecipeExtractor.normalize_value, hs.1, Bool.false_eq_true, if_false, hs.2,
        List.cons.injEq, true_and]
      exact ih (fun t ht => h t (by simp [ht]))

/-- Claim C9, witness: the fixed-point statement applied to the
already-normalized list of tokens "ab", "c". -/
theorem c9_normalizer_fixed_points_witness :
    RecipeExtractor.normalize_value
        (PyVal.list (([strOf "ab", strOf "c"]).map PyVal.str)) =
      PyVal.list (([strOf "ab", strOf "c"]).map PyVal.str) :=
  c9_normalizer_fixed_points.2 [strOf "ab", strOf "c"] (by decide)

/-- Claim C9, counterexample: the StringList with tokens "1", "b" is an
ordered list of lowercase string tokens, yet re-normalizing it converts
the token "1" into the number 1, so normalization is not idempotent on
every already-StringList value. -/
theorem c9_numeric_token_counterexample :
    RecipeExtractor.normalize_value
        (PyVal.list [PyVal.str (strOf "1"), PyVal.str (strOf "b")]) =
      PyVal.list [PyVal.num 1, PyVal.str (strOf "b")] ∧
    PyVal.list [PyVal.num 1, PyVal.str (strOf "b")] ≠
      PyVal.list [PyVal.str (strOf "1"), PyVal.str (strOf "b")] := by
  constructor
  · have h1 : pyNumericTest (strOf "1") = true := by decide
    have h2 : pyNumericTest (strOf "b") = false := by decide
    have h3 : parseFloat (strOf "1") = 1 := by decide
    have h4 : lowerS (strOf "b") = strOf "b" := by decide
    simp [RecipeExtractor.normalize_value, RecipeExtractor.normalizeList,
      h1, h2, h3, h4]
  · intro h
    have h1 := (PyVal.list.injEq _ _).mp h
    have h2 := (List.cons.injEq _ _ _ _).mp h1
    exact PyVal.noConfusion h2.1

/- ------------------------------------------------------------------ -/
/- Claims C5 and C7: the slot extractor                               -/
/- ------------------------------------------------------------------ -/

/-- Claim C5, counterexample: permuting the bracketed segments of a slot
line changes the extracted Slot.  With `tags[tool]` placed before the
bracketed item list, the generic first-bracket rule captures `tool` as
the item list, whereas the opposite order yields the items a, b. -/
theorem c5_order_sensitivity_counterexample :
    (RecipeExtractor._parse_slot (strOf "item 1 tags[tool] [a;b]")).map
        RecipeExtractor.slotFields ≠
      (RecipeExtractor._parse_slot (strOf "item 1 [a;b] tags[tool]")).map
        RecipeExtractor.slotFields ∧
    (RecipeExtractor._parse_slot (strOf "item 1 tags[tool] [a;b]")).map
        (fun s => s.items) = some [strOf "tool"] ∧
    (RecipeExtractor._parse_slot (strOf "item 1 [a;b] tags[tool]")).map
        (fun s => s.items) = some [strOf "a", strOf "b"] :=
  ⟨by decide, by decide, by decide⟩

/-- Claim C5 (amended): each absent pattern yields its default (count
1.0, empty lists, no mapper, no mode) rather than an error, and a Slot
gets its items either from the first bracketed segment of the line or,
when no bracket exists, from the single identifier token following the
count — never both.  Order-insensitivity, however, fails in general: a
bracketed tags segment placed before the item list is captured as the
item list (see the counterexample), and with no bracket present the
fallback captures whichever token follows the count, so permuting the
mapper: and mode: segments changes the extracted items even though the
mapper and mode fields themselves are position-independent. -/
theorem c5_slot_rules_amended :
    RecipeExtractor._parse_slot (strOf "item") =
      some ⟨1, [], [], [], none, none, strOf "item"⟩ ∧
    RecipeExtractor._parse_slot (strOf "item 2") =
      some ⟨2, [], [], [], none, none, strOf "item 2"⟩ ∧
    (RecipeExtractor._parse_slot (strOf "item 2 x.y [t]")).map
        (fun s => s.items) = some [strOf "t"] ∧
    (RecipeExtractor._parse_slot (strOf "item 2 x.y")).map
        (fun s => s.items) = some [strOf "x.y"] ∧
    (RecipeExtractor._parse_slot (strOf "item 2 mapper:m mode:c")).map
        RecipeExtractor.slotFields ≠
      (RecipeExtractor._parse_slot (strOf "item 2 mode:c mapper:m")).map
        RecipeExtractor.slotFields ∧
    (RecipeExtractor._parse_slot (strOf "item 2 mapper:m mode:c")).map
        (fun s => s.items) = some [strOf "mapper:m"] ∧
    (RecipeExtractor._parse_slot (strOf "item 2 mode:c mapper:m")).map
        (fun s => s.items) = some [strOf "mode:c"] ∧
    (RecipeExtractor._parse_slot (strOf "item 2 mapper:m mode:c")).map
        (fun s => (s.mapper, s.mode)) =
      (RecipeExtractor._parse_slot (strOf "item 2 mode:c mapper:m")).map
        (fun s => (s.mapper, s.mode)) :=
  ⟨by decide, by decide, by decide, by decide, by decide, by decide, by decide, by decide⟩

/- ------------------------------------------------------------------ -/
/- Helper lemmas for the parser claims                                -/
/- ------------------------------------------------------------------ -/

lemma dropWhile_idem (p : Char → Bool) :
    ∀ x : Str, (x.dropWhile p).dropWhile p = x.dropWhile p := by
  intro x
  induction x with
  | nil => rfl
  | cons c cs ih =>
    by_cases h : p c
    · simp [List.dropWhile_cons, h, ih]
    · simp [List.dropWhile_cons, h]

lemma rstrip_idem (l : Str) : rstrip (rstrip l) = rstrip l := by
  unfold rstrip
  rw [List.reverse_reverse, dropWhile_idem]

lemma strip_rstrip (l : Str) : strip (rstrip l) = strip l := by
  unfold strip
  rw [rstrip_idem]

lemma containsC_mid (c : Char) :
    ∀ (k v : Str), containsC c (k ++ c :: v) = true := by
  intro k v
  induction k with
  | nil => simp [containsC]
  | cons d ds ih => simp [containsC, ih]

lemma splitFirst_append (c : Char) :
    ∀ (k v : Str), containsC c k = false → splitFirst c (k ++ c :: v) = some (k, v) := by
  intro k
  induction k with
  | nil => intro v _; simp [splitFirst]
  | cons d ds ih =>
    intro v h
    simp only [containsC, Bool.or_eq_false_iff] at h
    have hd : ¬ d = c := by simpa using h.1
    simp only [List.cons_append, splitFirst, if_neg hd]
    rw [show ds.append (c :: v) = ds ++ c :: v from rfl, ih v h.2]

lemma consumeItemBlock_balanced_runs_to_eof :
    ∀ (body : List Str) (d : Int) (p : List ItemExtractor.RawProperty)
      (e : List (Str × Str)),
      (∀ l ∈ body, countC '{' (strip l) = countC '}' (strip l)) → 0 < d →
      (ItemExtractor.consumeItemBlock body d p e).2.2 = [] := by
  intro body
  induction body with
  | nil => intro d p e _ _; rfl
  | cons l ls ih =>
    intro d p e h hd
    have hb := h l (by simp)
    have hdepth : d + (countC '{' (strip l) : Int) - (countC '}' (strip l) : Int) = d := by
      rw [hb]; ring
    simp only [ItemExtractor.consumeItemBlock, hdepth]
    rw [if_pos hd]
    exact ih d _ _ (fun x hx => h x (by simp [hx])) hd

/- ------------------------------------------------------------------ -/
/- Claim C1                                                           -/
/- ------------------------------------------------------------------ -/

/-- Claim C1 (amended): when the brace depth of a block never returns to
0 before end of file, the block loop scans to end of file with the depth
still positive — and the parser then emits the partially accumulated
block anyway (both parsers), rather than dropping it.  The first
conjunct shows the item block loop reaches end of file (empty remainder)
on any block body with per-line balanced braces; the other conjuncts
show both parsers emitting a record for a concrete never-closed
block. -/
theorem c1_truncated_block_still_emitted :
    (∀ (body : List Str) (p : List ItemExtractor.RawProperty) (e : List (Str × Str)),
      (∀ l ∈ body, countC '{' (strip l) = countC '}' (strip l)) →
      (ItemExtractor.consumeItemBlock body 1 p e).2.2 = []) ∧
    ItemExtractor.parse_items
        [(strOf "w", strOf "m", strOf "common", strOf "f.txt",
          mkLines [("module M"), ("item A"), ("\x7b"), ("x = 1")])] =
      [⟨strOf "w.m.M.A", strOf "w", strOf "m", strOf "M", strOf "A",
        strOf "f.txt", strOf "common",
        [⟨some (strOf "x"), some (strOf "1"), strOf "x = 1"⟩],
        [(strOf "x", strOf "1")]⟩] ∧
    RecipeExtractor.parse_recipes
        [(strOf "BASE", strOf "BaseGame", strOf "base", strOf "p",
          mkLines [("module M"), ("craftrecipe R"), ("\x7b"), ("x = 1")])] =
      some ([⟨strOf "BASE.BaseGame.M.R", strOf "BASE", strOf "BaseGame",
        some (strOf "M"), strOf "R", strOf "p", strOf "base",
        [⟨strOf "x = 1"⟩], [(strOf "x", strOf "1")], [], [], []⟩], []) :=
  ⟨fun body p e h => consumeItemBlock_balanced_runs_to_eof body 1 p e h (by norm_num),
    by decide, by decide⟩

/-- Claim C1, witness: the universal conjunct applied to a concrete
two-line block body with no braces at all. -/
theorem c1_truncated_block_still_emitted_witness :
    (ItemExtractor.consumeItemBlock (mkLines [("x = 1"), ("y = 2")]) 1 [] []).2.2 = [] :=
  c1_truncated_block_still_emitted.1 (mkLines [("x = 1"), ("y = 2")]) [] [] (by decide)

/-- Claim C1, counterexample: a file whose item block opens a brace that
is never closed (depth stays 1 to end of file); the claim says no record
is emitted for the block, but parse_items emits exactly one record for
it, named Axe with its accumulated property. -/
theorem c1_unclosed_block_counterexample :
    (ItemExtractor.parse_items
        [(strOf "w", strOf "m", strOf "common", strOf "g.txt",
          mkLines [("module Mod"), ("item Axe"), ("\x7b"), ("Weight = 2,")])]).length = 1 ∧
    (ItemExtractor.parse_items
        [(strOf "w", strOf "m", strOf "common", strOf "g.txt",
          mkLines [("module Mod"), ("item Axe"), ("\x7b"), ("Weight = 2,")])]).map
        ItemExtractor.ItemDefinition.item_name = [strOf "Axe"] :=
  ⟨by decide, by decide⟩

/- ------------------------------------------------------------------ -/
/- Claim C3                                                           -/
/- ------------------------------------------------------------------ -/

/-- Claim C3 (amended): for a brace-free block line whose stripped text
is kraw, an equals sign, vraw (the first equals sign in the line), the
item parser records the raw property with trimmed key and with value
obtained by removing ALL trailing commas and then trimming, and the
effective entry under the lowercased trimmed key; the recipe parser
records the effective entry with the value additionally lowercased.  A
value ending in two commas keeps neither (see the counterexample). -/
theorem c3_property_extraction :
    ∀ (l kraw vraw : Str),
      strip l = kraw ++ '=' :: vraw →
      containsC '=' kraw = false →
      countC '{' (strip l) = 0 →
      countC '}' (strip l) = 0 →
      ItemExtractor.consumeItemBlock [l] 1 [] [] =
        ([⟨some (strip kraw), some (strip (rstripCommas vraw)), rstrip l⟩],
          [(lowerS (strip kraw), strip (rstripCommas vraw))], []) ∧
      RecipeExtractor.consumeRecipeBlock 2 [l] 1 [] [] [] [] [] =
        some ([⟨rstrip l⟩],
          [(lowerS (strip kraw), lowerS (strip (rstripCommas vraw)))], [], [], [], []) := by
  intro l kraw vraw h1 h2 h3 h4
  have hc : containsC '=' (strip l) = true := by
    rw [h1]; exact containsC_mid '=' kraw vraw
  have hsplit : splitFirst '=' (strip l) = some (kraw, vraw) := by
    rw [h1]; exact splitFirst_append '=' kraw vraw h2
  have hdepth : (1 : Int) + (countC '{' (strip l) : Int) - (countC '}' (strip l) : Int) = 1 := by
    rw [h3, h4]; ring
  constructor
  · simp only [ItemExtractor.consumeItemBlock, hc, hsplit, hdepth]
    norm_num
    simp [dictSet]
  · have hc2 : containsC '=' (strip (rstrip l)) = true := by
      rw [strip_rstrip]; exact hc
    have hsplit2 : splitFirst '=' (strip (rstrip l)) = some (kraw, vraw) := by
      rw [strip_rstrip]; exact hsplit
    have hdepth2 : (1 : Int) + (countC '{' (strip (rstrip l)) : Int) -
        (countC '}' (strip (rstrip l)) : Int) = 1 := by
      rw [strip_rstrip]; exact hdepth
    simp only [RecipeExtractor.consumeRecipeBlock, hc2, hsplit2, hdepth2]
    norm_num
    simp [RecipeExtractor.consumeRecipeBlock, dictSet]

/-- Claim C3, witness: the extraction statement applied to the line
with two trailing commas; the key is lowercased and trimmed, the value
loses both commas. -/
theorem c3_property_extraction_witness :
    ItemExtractor.consumeItemBlock [strOf "  Weight = 5,,  "] 1 [] [] =
      ([⟨some (strOf "Weight"), some (strOf "5"), strOf "  Weight = 5,,"⟩],
        [(strOf "weight", strOf "5")], []) ∧
    RecipeExtractor.consumeRecipeBlock 2 [strOf "  Weight = 5,,  "] 1 [] [] [] [] [] =
      some ([⟨strOf "  Weight = 5,,"⟩], [(strOf "weight", strOf "5")], [], [], [], []) :=
  c3_property_extraction (strOf "  Weight = 5,,  ") (strOf "Weight ") (strOf " 5,,")
    (by decide) (by decide) (by decide) (by decide)

/-- Claim C3, counterexample: on the line a=b,, the extracted effective
value is b with both trailing commas removed, not the b-comma the claim
(exactly one trailing comma removed) requires. -/
theorem c3_double_comma_counterexample :
    (ItemExtractor.consumeItemBlock [strOf "a=b,,\n"] 1 [] []).2.1 =
      [(strOf "a", strOf "b")] ∧
    strOf "b" ≠ strOf "b," :=
  ⟨by decide, by decide⟩

/- ------------------------------------------------------------------ -/
/- Claim C4                                                           -/
/- ------------------------------------------------------------------ -/

/-- Claim C4: the brace policies are asymmetric.  A craftrecipe header
followed by a comment line and then an opening brace is rejected by the
recipe parser with the structural error Missing opening brace (and no
recipe record), while the analogous item header (with an active module)
is accepted: the item parser skips the comment during lookahead and
emits the block. -/
theorem c4_brace_policy_asymmetry :
    RecipeExtractor.parse_recipes
        [(strOf "BASE", strOf "BaseGame", strOf "base", strOf "f.txt",
          mkLines [("module Base"), ("craftrecipe Foo"), ("// note"), ("\x7b"), ("\x7d")])] =
      some ([], [⟨strOf "f.txt", some (strOf "Base"), some (strOf "Foo"),
        strOf "Missing opening brace"⟩]) ∧
    ItemExtractor.parse_items
        [(strOf "BASE", strOf "BaseGame", strOf "base", strOf "f.txt",
          mkLines [("module Base"), ("item Foo"), ("// note"), ("\x7b"), ("\x7d")])] =
      [⟨strOf "BASE.BaseGame.Base.Foo", strOf "BASE", strOf "BaseGame", strOf "Base",
        strOf "Foo", strOf "f.txt", strOf "base",
        [⟨none, none, strOf "\x7d"⟩], []⟩] :=
  ⟨by decide, by decide⟩

/- ------------------------------------------------------------------ -/
/- Claim C6                                                           -/
/- ------------------------------------------------------------------ -/

/-- Claim C6 (amended): when a line stripping to a closing brace exists,
the inputs and outputs loop and the itemmapper loop stop exactly at the
first such line — collecting exactly the slot lines, or the raw lines
and equals mappings, before it — and hand the outer loop the remainder
with the depth counter untouched (the loops never see the counter).
When no such line remains, both loops abort the parse (the IndexError
of the source, modelled as none) instead of being total. -/
theorem c6_subblock_loops_stop_at_first_close :
    ∀ (xs rest : List Str) (b : Str) (r0 : List Str) (m0 : List (Str × Str)),
      (∀ x ∈ xs, strip x ≠ ['}']) →
      strip b = ['}'] →
      ((∀ x ∈ xs, startsWithC (strOf "item") (lowerS (strip x)) = true →
          (RecipeExtractor._parse_slot x).isSome = true) →
        RecipeExtractor.consumeSlots (xs ++ b :: rest) =
          some (xs.filterMap (fun x =>
            if startsWithC (strOf "item") (lowerS (strip x)) = true
            then RecipeExtractor._parse_slot x else none), rest)) ∧
      RecipeExtractor.consumeSlots xs = none ∧
      RecipeExtractor.consumeMapper (xs ++ b :: rest) r0 m0 =
        some (r0 ++ xs.map rstrip,
          xs.foldl (fun acc x =>
            if containsC '=' x then
              match splitFirst '=' x with
              | some (k, v) =>
                dictSet acc (lowerS (strip k)) (lowerS (strip (rstripCommas v)))
              | none => acc
            else acc) m0, rest) ∧
      RecipeExtractor.consumeMapper xs r0 m0 = none := by
  intro xs
  induction xs with
  | nil =>
    intro rest b r0 m0 _ hb
    refine ⟨fun _ => ?_, rfl, ?_, rfl⟩
    · simp [RecipeExtractor.consumeSlots, hb]
    · simp [RecipeExtractor.consumeMapper, hb]
  | cons x xs ih =>
    intro rest b r0 m0 h1 hb
    have hx : ¬ (strip x = ['}']) := h1 x (by simp)
    have ihx := ih rest b (r0 ++ [rstrip x])
      (if containsC '=' x then
        match splitFirst '=' x with
        | some (k, v) => dictSet m0 (lowerS (strip k)) (lowerS (strip (rstripCommas v)))
        | none => m0
      else m0)
      (fun t ht => h1 t (by simp [ht])) hb
    refine ⟨fun h3 => ?_, ?_, ?_, ?_⟩
    · have hx3 := h3 x (by simp)
      by_cases hi : startsWithC (strOf "item") (lowerS (strip x)) = true
      · obtain ⟨s, hs⟩ := Option.isSome_iff_exists.mp (hx3 hi)
        have hrec := ihx.1 (fun t ht hw => h3 t (by simp [ht]) hw)
        simp only [List.cons_append, RecipeExtractor.consumeSlots, List.append_eq,
          if_neg hx, hi, if_pos, hs, hrec, List.filterMap_cons, if_true]
      · have hrec := ihx.1 (fun t ht hw => h3 t (by simp [ht]) hw)
        have hi2 : startsWithC (strOf "item") (lowerS (strip x)) = false :=
          Bool.not_eq_true _ ▸ (by simpa using hi)
        simp only [List.cons_append, RecipeExtractor.consumeSlots, List.append_eq,
          if_neg hx, hi2, Bool.false_eq_true, if_false, hrec, List.filterMap_cons]
    · by_cases hi : startsWithC (strOf "item") (lowerS (strip x)) = true
      · cases hps : RecipeExtractor._parse_slot x with
        | none => simp [RecipeExtractor.consumeSlots, if_neg hx, hi, hps]
        | some s => simp [RecipeExtractor.consumeSlots, if_neg hx, hi, hps, ihx.2.1]
      · have hi2 : startsWithC (strOf "item") (lowerS (strip x)) = false := by
          simpa using hi
        simp [RecipeExtractor.consumeSlots, if_neg hx, hi2, ihx.2.1]
    · have hrec := ihx.2.2.1
      simp only [List.cons_append, RecipeExtractor.consumeMapper, List.append_eq,
        if_neg hx, hrec, List.map_cons, List.foldl_cons]
      simp [List.append_assoc]
    · simp [RecipeExtractor.consumeMapper, if_neg hx, ihx.2.2.2]

/-- Claim C6, witness: the loop statements applied to a concrete inputs
body (one slot line and one free line) closed by a brace line, and to
the same body with the closing line missing. -/
theorem c6_subblock_loops_witness :
    RecipeExtractor.consumeSlots
        [strOf "item 1 a\n", strOf "note\n", strOf "\x7d\n", strOf "z"] =
      some ([⟨1, [strOf "a"], [], [], none, none, strOf "item 1 a"⟩], [strOf "z"]) ∧
    RecipeExtractor.consumeSlots [strOf "item 1 a\n", strOf "note\n"] = none ∧
    RecipeExtractor.consumeMapper
        [strOf "item 1 a\n", strOf "note\n", strOf "\x7d\n", strOf "z"] [] [] =
      some ([strOf "item 1 a", strOf "note"], [], [strOf "z"]) ∧
    RecipeExtractor.consumeMapper [strOf "item 1 a\n", strOf "note\n"] [] [] = none := by
  have h := c6_subblock_loops_stop_at_first_close
    [strOf "item 1 a\n", strOf "note\n"] [strOf "z"] (strOf "\x7d\n") [] []
    (by decide) (by decide)
  exact ⟨h.1 (by decide), h.2.1, h.2.2.1, h.2.2.2⟩

/-- Claim C6, counterexample: a recipe whose inputs sub-block reaches end
of file before any closing brace line.  The claim says the sub-block
loops are total and stop at the first closing brace; instead the whole
parse crashes with an IndexError (modelled as none), and no output at
all is produced for the entire file set. -/
theorem c6_missing_close_crashes_counterexample :
    RecipeExtractor.parse_recipes
        [(strOf "BASE", strOf "BaseGame", strOf "base", strOf "p",
          mkLines [("module M"), ("craftrecipe R"), ("\x7b"), ("inputs"),
            ("\x7b"), ("item 1 a")])] =
      none := by
  decide

/- ------------------------------------------------------------------ -/
/- Claim C8                                                           -/
/- ------------------------------------------------------------------ -/

/-- Claim C8 (amended): the depth-restricted routing of equals lines
holds for the recipe parser only: in a recipe block with a nested
sub-block, the property at depth 1 is recorded and the equals line at
depth 2 is not.  The item parser records equals lines at every depth
within the block, so the claimed restriction fails there (see the
counterexample). -/
theorem c8_depth_routing_asymmetry :
    (RecipeExtractor.parse_recipes
        [(strOf "BASE", strOf "BaseGame", strOf "base", strOf "f.txt",
          mkLines [("module M"), ("craftrecipe R"), ("\x7b"), ("a = 1,"), ("sub"),
            ("\x7b"), ("b = 2"), ("\x7d"), ("\x7d")])]).map
        (fun p => p.1.map RecipeExtractor.RecipeDefinition.effective_properties) =
      some [[(strOf "a", strOf "1")]] ∧
    (ItemExtractor.parse_items
        [(strOf "w1", strOf "m1", strOf "common", strOf "f.txt",
          mkLines [("module M"), ("item R"), ("\x7b"), ("a = 1,"), ("sub"),
            ("\x7b"), ("b = 2"), ("\x7d"), ("\x7d")])]).map
        ItemExtractor.ItemDefinition.effective_properties =
      [[(strOf "a", strOf "1"), (strOf "b", strOf "2")]] :=
  ⟨by decide, by decide⟩

/-- Claim C8, counterexample: inside an item block, the line c = 3 sits
at brace depth 2 (inside a nested sub-block), yet the item parser
records it as an effective property of the block, contradicting the
claim that equals lines at deeper nesting are not recorded by both
parsers. -/
theorem c8_item_records_nested_property :
    (ItemExtractor.parse_items
        [(strOf "w1", strOf "m1", strOf "common", strOf "h.txt",
          mkLines [("module M"), ("item S"), ("\x7b"), ("sub"), ("\x7b"),
            ("c = 3"), ("\x7d"), ("\x7d")])]).map
        ItemExtractor.ItemDefinition.effective_properties =
      [[(strOf "c", strOf "3")]] ∧
    ([[(strOf "c", strOf "3")]] : List (List (Str × Str))) ≠ [[]] :=
  ⟨by decide, by decide⟩

/- ------------------------------------------------------------------ -/
/- Claim C10                                                          -/
/- ------------------------------------------------------------------ -/

/-- Claim C10: the recipe parser silently filters its input file set: a
tuple whose workshop id is not BASE and whose lowercased source root
does not start with 42 contributes no recipe records and no error
records (removing it from any file list leaves the output unchanged),
even when its content would otherwise produce an error; the item parser
applies no such filter and emits a record from an identical tuple. -/
theorem c10_recipe_filter_skips_other_roots :
    (∀ (fs1 fs2 : List FileT) (wid mid sroot path : Str) (lines : List Str),
      wid ≠ strOf "BASE" →
      startsWithC (strOf "42") (lowerS sroot) = false →
      RecipeExtractor.parse_recipes (fs1 ++ (wid, mid, sroot, path, lines) :: fs2) =
        RecipeExtractor.parse_recipes (fs1 ++ fs2)) ∧
    RecipeExtractor.parse_recipes
        [(strOf "w77", strOf "mod", strOf "common", strOf "p",
          mkLines [("module M"), ("craftrecipe A")])] = some ([], []) ∧
    (ItemExtractor.parse_items
        [(strOf "w77", strOf "mod", strOf "common", strOf "p",
          mkLines [("module M"), ("item A"), ("\x7b"), ("\x7d")])]).map
        ItemExtractor.ItemDefinition.item_name = [strOf "A"] := by
  refine ⟨?_, by decide, by decide⟩
  intro fs1 fs2 wid mid sroot path lines h1 h2
  induction fs1 with
  | nil =>
    simp only [List.nil_append, RecipeExtractor.parse_recipes]
    rw [if_pos ⟨h1, h2⟩]
  | cons f fs ih =>
    obtain ⟨w, m, s, p, ls⟩ := f
    simp only [List.cons_append, RecipeExtractor.parse_recipes, List.append_eq]
    rw [ih]

/-- Claim C10, witness: deleting a non-BASE, non-42 tuple from a file
list leaves the recipe parser output unchanged. -/
theorem c10_recipe_filter_witness :
    RecipeExtractor.parse_recipes
        [(strOf "BASE", strOf "BaseGame", strOf "base", strOf "q",
            mkLines [("module M")]),
          (strOf "w9", strOf "mod2", strOf "common", strOf "p",
            mkLines [("module M"), ("craftrecipe A")])] =
      RecipeExtractor.parse_recipes
        [(strOf "BASE", strOf "BaseGame", strOf "base", strOf "q",
          mkLines [("module M")])] :=
  c10_recipe_filter_skips_other_roots.1
    [(strOf "BASE", strOf "BaseGame", strOf "base", strOf "q", mkLines [("module M")])]
    [] (strOf "w9") (strOf "mod2") (strOf "common") (strOf "p")
    (mkLines [("module M"), ("craftrecipe A")]) (by decide) (by decide)

/-- Claim C7: the slot scenario from the specification.  The line
`item 2 [base.Hammer;base.Nails] tags[tool] mode:craft` extracts
count 2.0, items base.hammer and base.nails, tags tool, no flags, no
mapper, mode craft. -/
theorem c7_slot_scenario :
    RecipeExtractor._parse_slot
        (strOf "item 2 [base.Hammer;base.Nails] tags[tool] mode:craft") =
      some ⟨2, [strOf "base.hammer", strOf "base.nails"], [strOf "tool"], [],
            none, some (strOf "craft"),
            strOf "item 2 [base.Hammer;base.Nails] tags[tool] mode:craft"⟩ := by
  decide

end PlayDead
